import Mathlib

/-!  Verification model of the pre-blocking CSV batch generator
    (src/server.js).  The two components with nontrivial logic are embedded
    shallowly and executably:

    * `validateAndFormatDate` — the date normalizer (src/server.js lines
      53-111), including the semantics of the JavaScript `Date` constructor
      (calendar rollover of out-of-range components, the 0..99 year offset,
      and the ±100,000,000-day time-value clip of ECMA-262 TimeClip).
      Timezone is not modelled: the code constructs dates and reads them back
      with same-zone getters, so the offset cancels on the civil fields.
    * `generateBatches` — the batch partitioner (src/server.js lines
      220-263), together with the grouping step of `processCSV` (lines
      140-147) and the per-row date validation (lines 126-137).

    JavaScript strings are modelled as `List Char`. -/

/-- JavaScript strings, modelled as lists of characters. -/
abbrev JsStr := List Char

/-- A parsed CSV row (one booking): the list of its column values.  Column 0
is the property id, columns 1 and 2 the check-in/check-out dates
(src/server.js lines 126-136). -/
abbrev Booking := List JsStr

/-- The property key `row[0]` of a booking (src/server.js lines 142, 184,
239).  A JS out-of-range index yields `undefined`; all such rows share that
one key, modelled here by the default `[]`. -/
def propId (row : Booking) : JsStr := row.headD []

/-- JavaScript `String.prototype.trim`, restricted to the whitespace
characters of `Char.isWhitespace` (space, tab, CR, LF): drop leading and
trailing whitespace. -/
def jsTrim (l : JsStr) : JsStr :=
  ((l.dropWhile Char.isWhitespace).reverse.dropWhile Char.isWhitespace).reverse

/-- The characters removed by `dateStr.replace(/['"]/g, '')` in
src/server.js line 59. -/
def isQuoteChar (ch : Char) : Bool := ch == '\'' || ch == '"'

/-- `dateStr.replace(/['"]/g, '').trim()` (src/server.js line 59): delete
every quote character, then trim. -/
def cleanDateOf (dateStr : JsStr) : JsStr :=
  jsTrim (dateStr.filter fun ch => !isQuoteChar ch)

/-- JavaScript `String.prototype.split` with a one-character separator:
`"".split(s)` is `[""]`, separators at the ends produce empty segments. -/
def splitOnChar (sep : Char) : JsStr → List JsStr
  | [] => [[]]
  | ch :: rest =>
    if ch = sep then [] :: splitOnChar sep rest
    else
      match splitOnChar sep rest with
      | [] => [[ch]]
      | s :: ss => (ch :: s) :: ss

/-- Value of a string of decimal digits. -/
def digitsVal (l : JsStr) : Nat :=
  l.foldl (fun acc ch => acc * 10 + (ch.toNat - 48)) 0

/-- JavaScript `Number(string)` coercion, on the fragment the repository's
dates exercise: surrounding whitespace is ignored, the empty string is `0`,
an optional sign followed by decimal digits is its integer value, and
anything else is NaN (`none`).  The unmodelled parts of the JS numeric
grammar (fractions, exponents, hex, `Infinity`) are mapped to NaN. -/
def jsToNumber (l : JsStr) : Option Int :=
  let t := jsTrim l
  if t = [] then some 0
  else if t.headD ' ' = '-' then
    if t.drop 1 ≠ [] ∧ (t.drop 1).all Char.isDigit then
      some (-(digitsVal (t.drop 1) : Int))
    else none
  else if t.headD ' ' = '+' then
    if t.drop 1 ≠ [] ∧ (t.drop 1).all Char.isDigit then
      some ((digitsVal (t.drop 1) : Int))
    else none
  else if t.all Char.isDigit then some ((digitsVal t : Int)) else none

/-- Proleptic-Gregorian leap-year rule, as used by ECMA-262. -/
def isLeapYear (y : Int) : Bool :=
  (y.emod 4 = 0 && y.emod 100 ≠ 0) || y.emod 400 = 0

/-- Days in month `m` (1-based) of year `y`. -/
def daysInMonth (y : Int) (m : Nat) : Nat :=
  if m = 2 then (if isLeapYear y then 29 else 28)
  else if m = 4 ∨ m = 6 ∨ m = 9 ∨ m = 11 then 30 else 31

/-- Day number (days since 1970-01-01) of the civil date `y-m-d`, for
`m ∈ 1..12`; standard era/year-of-era decomposition of the proleptic
Gregorian calendar. -/
def daysFromCivil (y m d : Int) : Int :=
  let y2 := if m ≤ 2 then y - 1 else y
  let era := y2.fdiv 400
  let yoe := y2 - era * 400
  let mp := (m + 9).emod 12
  let doy := (153 * mp + 2).fdiv 5 + d - 1
  let doe := yoe * 365 + yoe.fdiv 4 - yoe.fdiv 100 + doy
  era * 146097 + doe - 719468

/-- Inverse of `daysFromCivil`: the civil date `(year, month, day)` of a day
number, month 1-based.  These are the fields JavaScript's `getFullYear`,
`getMonth() + 1` and `getDate` return for a date constructed in the same
timezone. -/
def civilFromDays (z0 : Int) : Int × Int × Int :=
  let z := z0 + 719468
  let era := z.fdiv 146097
  let doe := z - era * 146097
  let yoe := (doe - doe.fdiv 1460 + doe.fdiv 36524 - doe.fdiv 146096).fdiv 365
  let y := yoe + era * 400
  let doy := doe - (365 * yoe + yoe.fdiv 4 - yoe.fdiv 100)
  let mp := (5 * doy + 2).fdiv 153
  let d := doy - (153 * mp + 2).fdiv 5 + 1
  let m := if mp < 10 then mp + 3 else mp - 9
  (if m ≤ 2 then y + 1 else y, m, d)

/-- ECMA-262 `MakeDay` composed with the constructor's 0..99 → 1900+y year
offset: out-of-range month and day components roll over into adjacent
months/years rather than failing. -/
def jsMakeDay (y m d : Int) : Int :=
  let yr := if 0 ≤ y ∧ y ≤ 99 then y + 1900 else y
  let ym := yr * 12 + m
  daysFromCivil (ym.fdiv 12) (ym.emod 12 + 1) 1 + (d - 1)

/-- `new Date(year, month, day)` (src/server.js lines 80, 83, 93, 96): NaN
in any argument gives an Invalid Date (`none`); otherwise the rolled-over
day number, unless it falls outside ECMA-262's TimeClip range of
±100,000,000 days from the epoch (then Invalid Date). -/
def jsDateYMD : Option Int → Option Int → Option Int → Option Int
  | some y, some m, some d =>
    let day := jsMakeDay y m d
    if day.natAbs ≤ 100000000 then some day else none
  | _, _, _ => none

/-- The regular expression `/^\d{4}-\d{2}-\d{2}$/` of src/server.js line
62. -/
def isIsoFormat : JsStr → Bool
  | [y1, y2, y3, y4, s1, m1, m2, s2, d1, d2] =>
    y1.isDigit && y2.isDigit && y3.isDigit && y4.isDigit && (s1 == '-') &&
    m1.isDigit && m2.isDigit && (s2 == '-') && d1.isDigit && d2.isDigit
  | _ => false

/-- Validity of `new Date("YYYY-MM-DD")` (src/server.js line 65) for a
string already matching `isIsoFormat`: the ISO date-string parser accepts it
iff the month is 1..12 and the day is within the month (V8 rejects e.g.
month 13 or February 30 with an Invalid Date). -/
def isoDateValid (l : JsStr) : Bool :=
  let y : Int := (digitsVal (l.take 4) : Int)
  let m : Nat := digitsVal ((l.drop 5).take 2)
  let d : Nat := digitsVal (l.drop 8)
  decide (1 ≤ m ∧ m ≤ 12 ∧ 1 ≤ d ∧ d ≤ daysInMonth y m)

/-- `String(x).padStart(2, '0')` (src/server.js lines 107-108). -/
def padTwo (n : Int) : JsStr :=
  let s := (toString n).toList
  if s.length < 2 then '0' :: s else s

/-- The `${year}-${month}-${day}` formatting of src/server.js lines
106-110, applied to a day number. -/
def formatJsDate (day : Int) : JsStr :=
  (toString (civilFromDays day).1).toList
    ++ '-' :: padTwo (civilFromDays day).2.1
    ++ '-' :: padTwo (civilFromDays day).2.2

/-- The errors thrown by `validateAndFormatDate`, carrying the data
interpolated into the JS message strings.  `emptyDate` is the spec's
`EmptyDate` kind; `invalidDateFormat` ("Invalid date format in ...") and
`unableToParse` ("Unable to parse date format in ...") are both the spec's
`InvalidDate` kind. -/
inductive DateError where
  | emptyDate (context : JsStr)
  | invalidDateFormat (context cleanDate : JsStr)
  | unableToParse (context cleanDate : JsStr)
deriving DecidableEq

instance {ε α : Type} [DecidableEq ε] [DecidableEq α] : DecidableEq (Except ε α) :=
  fun a b =>
    match a, b with
    | .error e, .error f =>
      if h : e = f then .isTrue (by rw [h]) else .isFalse (by intro hc; cases hc; exact h rfl)
    | .error _, .ok _ => .isFalse (by intro hc; cases hc)
    | .ok _, .error _ => .isFalse (by intro hc; cases hc)
    | .ok x, .ok y =>
      if h : x = y then .isTrue (by rw [h]) else .isFalse (by intro hc; cases hc; exact h rfl)

/-- The slash branch of src/server.js lines 76-86: split on `/`; with three
parts, try day-first `new Date(parts[2], parts[1] - 1, parts[0])` and, if
that is an Invalid Date, month-first `new Date(parts[2], parts[0] - 1,
parts[1])`. -/
def parseSlash (cleanDate : JsStr) : Option Int :=
  let parts := splitOnChar '/' cleanDate
  if parts.length = 3 then
    match jsDateYMD (jsToNumber (parts.getD 2 []))
        (Option.map (fun x => x - 1) (jsToNumber (parts.getD 1 [])))
        (jsToNumber (parts.getD 0 [])) with
    | some t => some t
    | none =>
      jsDateYMD (jsToNumber (parts.getD 2 []))
        (Option.map (fun x => x - 1) (jsToNumber (parts.getD 0 [])))
        (jsToNumber (parts.getD 1 []))
  else none

/-- The dash branch of src/server.js lines 89-99: like the slash branch but
splitting on `-`, only entered when the first segment has length ≤ 2. -/
def parseDash (cleanDate : JsStr) : Option Int :=
  let parts := splitOnChar '-' cleanDate
  if parts.length = 3 ∧ (parts.getD 0 []).length ≤ 2 then
    match jsDateYMD (jsToNumber (parts.getD 2 []))
        (Option.map (fun x => x - 1) (jsToNumber (parts.getD 1 [])))
        (jsToNumber (parts.getD 0 [])) with
    | some t => some t
    | none =>
      jsDateYMD (jsToNumber (parts.getD 2 []))
        (Option.map (fun x => x - 1) (jsToNumber (parts.getD 0 [])))
        (jsToNumber (parts.getD 1 []))
  else none

/-- `validateAndFormatDate(dateStr, context)` of src/server.js lines
53-111: reject empty/whitespace values; accept a valid canonical
`YYYY-MM-DD` unchanged; otherwise try the slash and dash layouts and
reformat the resulting date, or throw. -/
def validateAndFormatDate (dateStr context : JsStr) : Except DateError JsStr :=
  if jsTrim dateStr = [] then .error (.emptyDate context)
  else if isIsoFormat (cleanDateOf dateStr) then
    if isoDateValid (cleanDateOf dateStr) then .ok (cleanDateOf dateStr)
    else .error (.invalidDateFormat context (cleanDateOf dateStr))
  else
    match
      (if '/' ∈ cleanDateOf dateStr then parseSlash (cleanDateOf dateStr)
       else if '-' ∈ cleanDateOf dateStr ∧ isIsoFormat (cleanDateOf dateStr) = false then
         parseDash (cleanDateOf dateStr)
       else none) with
    | none => .error (.unableToParse context (cleanDateOf dateStr))
    | some t => .ok (formatJsDate t)

/-- The context string `Row ${index + 2}, checkin` of src/server.js line
132. -/
def checkinContext (index : Nat) : JsStr :=
  "Row ".toList ++ (toString (index + 2)).toList ++ ", checkin".toList

/-- The context string `Row ${index + 2}, checkout` of src/server.js line
133. -/
def checkoutContext (index : Nat) : JsStr :=
  "Row ".toList ++ (toString (index + 2)).toList ++ ", checkout".toList

/-- One step of the `rows.map` of src/server.js lines 126-137: split the
line on commas and, when there are more than two columns, normalize the
check-in then the check-out date (the first failure aborts the row). -/
def processRow (line : JsStr) (index : Nat) : Except DateError Booking :=
  let columns := splitOnChar ',' line
  if 2 < columns.length then
    match validateAndFormatDate (columns.getD 1 []) (checkinContext index) with
    | .error e => .error e
    | .ok c1 =>
      match validateAndFormatDate (columns.getD 2 []) (checkoutContext index) with
      | .error e => .error e
      | .ok c2 => .ok ((columns.set 1 c1).set 2 c2)
  else .ok columns

/-- One step of the grouping of src/server.js lines 140-147
(`propertyBookings[propertyId].push(row)`): append the row to the bucket of
its key, creating the bucket at the end on first occurrence.  JS object keys
here enumerate in insertion order (the integer-index key reordering of JS
objects is not modelled; the claims' inputs use non-index keys). -/
def addToGroup : List (JsStr × List Booking) → JsStr → Booking → List (JsStr × List Booking)
  | [], key, row => [(key, [row])]
  | (k, rs) :: rest, key, row =>
    if k = key then (k, rs ++ [row]) :: rest
    else (k, rs) :: addToGroup rest key row

/-- The `propertyBookings` object built by src/server.js lines 140-147,
as an insertion-ordered association list. -/
def groupByProperty (rows : List Booking) : List (JsStr × List Booking) :=
  rows.foldl (fun acc row => addToGroup acc (propId row) row) []

/-- The `allBookings` pool of src/server.js lines 222-227: concatenate the
groups' rows in group-enumeration order. -/
def allBookingsOf (propertyBookings : List (JsStr × List Booking)) : List Booking :=
  (propertyBookings.map Prod.snd).flatten

/-- The inner `for` loop of src/server.js lines 237-247: scan the pool in
order; while the batch is below `mbs` records, take each booking whose
property's in-batch count is below `mpp` (incrementing it), and keep the
rest.  Returns (taken in pool order, kept in pool order) — the taken
bookings are `currentBatch`, the kept ones are what survives the
`usedIndices` splice of lines 250-252. -/
def scanPool (mbs mpp : Nat) : List Booking → Nat → (JsStr → Nat) → List Booking × List Booking
  | [], _, _ => ([], [])
  | b :: rest, batchLen, counts =>
    if batchLen < mbs then
      if counts (propId b) < mpp then
        (b :: (scanPool mbs mpp rest (batchLen + 1)
            (fun p => if p = propId b then counts p + 1 else counts p)).1,
          (scanPool mbs mpp rest (batchLen + 1)
            (fun p => if p = propId b then counts p + 1 else counts p)).2)
      else
        ((scanPool mbs mpp rest batchLen counts).1,
          b :: (scanPool mbs mpp rest batchLen counts).2)
    else ([], b :: rest)

/-- The outer `while (allBookings.length > 0)` loop of src/server.js lines
231-260, written with explicit fuel: each iteration scans the current pool
with fresh batch/counters, emits the batch if non-empty, and otherwise
breaks (the safety stop of lines 256-259).  A fuel of `pool.length + 1`
is always enough — each emitted batch removes at least one record — which
the termination theorem below makes precise. -/
def drainFuel (mbs mpp : Nat) : Nat → List Booking → List (List Booking)
  | 0, _ => []
  | fuel + 1, pool =>
    if pool = [] then []
    else if (scanPool mbs mpp pool 0 (fun _ => 0)).1 = [] then []
    else
      (scanPool mbs mpp pool 0 (fun _ => 0)).1 ::
        drainFuel mbs mpp fuel ((scanPool mbs mpp pool 0 (fun _ => 0)).2)

/-- Modelled from the spec: the contract `partition(records, maxBatchSize,
maxPerProperty)` of spec §4.2/§6 — the drain loop of `generateBatches` with
the two limits taken as caller-supplied parameters instead of the literals
`250` (src/server.js line 237) and `2` (line 242). -/
def partitionSpec (records : List Booking) (maxBatchSize maxPerProperty : Nat) :
    List (List Booking) :=
  drainFuel maxBatchSize maxPerProperty (records.length + 1) records

/-- `generateBatches(propertyBookings, header)` of src/server.js lines
220-263: flatten the groups into a pool and drain it greedily with the
hardcoded limits of at most 250 bookings per batch and at most 2 bookings
per property per batch.  `header` is unused by the loop (it is only passed
through by the caller). -/
def generateBatches (propertyBookings : List (JsStr × List Booking)) (header : JsStr) :
    List (List Booking) :=
  drainFuel 250 2 ((allBookingsOf propertyBookings).length + 1) (allBookingsOf propertyBookings)

/-- Number of records in a batch bearing property key `k` (the
`propertyCountInBatch` quantity of src/server.js lines 241-244). -/
def propCountIn (batch : List Booking) (k : JsStr) : Nat :=
  (batch.filter fun r => decide (propId r = k)).length

/-! ### Character and string lemmas -/

lemma isDigit_isWhitespace_false {c : Char} (h : c.isDigit = true) :
    c.isWhitespace = false := by
  by_contra hw
  rw [Bool.not_eq_false] at hw
  have hc : c = ' ' ∨ c = '\t' ∨ c = '\r' ∨ c = '\n' := by
    simpa [Char.isWhitespace, or_assoc] using hw
  rcases hc with h1 | h1 | h1 | h1 <;> rw [h1] at h <;> exact absurd h (by decide)

lemma isDigit_isQuoteChar_false {c : Char} (h : c.isDigit = true) :
    isQuoteChar c = false := by
  by_contra hq
  rw [Bool.not_eq_false] at hq
  have hc : c = '\'' ∨ c = '"' := by simpa [isQuoteChar] using hq
  rcases hc with h1 | h1 <;> rw [h1] at h <;> exact absurd h (by decide)

lemma isDigit_ne {c x : Char} (h : c.isDigit = true) (hx : x.isDigit = false) : c ≠ x := by
  intro hc
  rw [hc, hx] at h
  exact Bool.noConfusion h

lemma dropWhile_eq_self_of_all {p : Char → Bool} {l : JsStr} (h : ∀ c ∈ l, p c = false) :
    l.dropWhile p = l := by
  cases l with
  | nil => rfl
  | cons c cs =>
    have hc := h c (List.mem_cons_self c cs)
    simp [List.dropWhile_cons, hc]

lemma jsTrim_eq_self {l : JsStr} (h : ∀ c ∈ l, c.isWhitespace = false) : jsTrim l = l := by
  unfold jsTrim
  rw [dropWhile_eq_self_of_all h,
    dropWhile_eq_self_of_all (fun c hc => h c (List.mem_reverse.mp hc)),
    List.reverse_reverse]

lemma filter_quotes_eq_self {l : JsStr} (h : ∀ c ∈ l, isQuoteChar c = false) :
    (l.filter fun ch => !isQuoteChar ch) = l := by
  apply List.filter_eq_self.mpr
  intro a ha
  simp [h a ha]

lemma cleanDateOf_eq_self {l : JsStr} (hw : ∀ c ∈ l, c.isWhitespace = false)
    (hq : ∀ c ∈ l, isQuoteChar c = false) : cleanDateOf l = l := by
  unfold cleanDateOf
  rw [filter_quotes_eq_self hq, jsTrim_eq_self hw]

lemma isIsoFormat_chars {l : JsStr} (h : isIsoFormat l = true) :
    l ≠ [] ∧ ∀ c ∈ l, c.isDigit = true ∨ c = '-' := by
  rcases l with _ | ⟨y1, _ | ⟨y2, _ | ⟨y3, _ | ⟨y4, _ | ⟨s1, _ | ⟨m1, _ | ⟨m2, _ | ⟨s2, _ | ⟨d1, _ | ⟨d2, _ | ⟨x, xs⟩⟩⟩⟩⟩⟩⟩⟩⟩⟩⟩ <;>
      simp only [isIsoFormat, Bool.and_eq_true, beq_iff_eq] at h <;>
      try exact Bool.noConfusion h
  obtain ⟨⟨⟨⟨⟨⟨⟨⟨⟨h1, h2⟩, h3⟩, h4⟩, h5⟩, h6⟩, h7⟩, h8⟩, h9⟩, h10⟩ := h
  refine ⟨by simp, ?_⟩
  intro c hc
  simp only [List.mem_cons, List.not_mem_nil, or_false] at hc
  rcases hc with rfl | rfl | rfl | rfl | rfl | rfl | rfl | rfl | rfl | rfl
  · exact Or.inl h1
  · exact Or.inl h2
  · exact Or.inl h3
  · exact Or.inl h4
  · exact Or.inr h5
  · exact Or.inl h6
  · exact Or.inl h7
  · exact Or.inr h8
  · exact Or.inl h9
  · exact Or.inl h10

lemma splitOnChar_of_not_mem {sep : Char} {l : JsStr} (h : sep ∉ l) :
    splitOnChar sep l = [l] := by
  induction l with
  | nil => rfl
  | cons c cs ih =>
    have hc : ¬(c = sep) := fun hc => h (hc ▸ List.mem_cons_self c cs)
    have hcs : sep ∉ cs := fun hm => h (List.mem_cons_of_mem c hm)
    simp [splitOnChar, hc, ih hcs]

lemma splitOnChar_append {sep : Char} {x r : JsStr} (h : sep ∉ x) :
    splitOnChar sep (x ++ sep :: r) = x :: splitOnChar sep r := by
  induction x with
  | nil => simp [splitOnChar]
  | cons c cs ih =>
    have hc : ¬(c = sep) := fun hc => h (hc ▸ List.mem_cons_self c cs)
    have hcs : sep ∉ cs := fun hm => h (List.mem_cons_of_mem c hm)
    simp [List.cons_append, splitOnChar, hc, ih hcs]

/-! ### Date normalizer: claim theorems -/

/-- C3: the spec says `13/13/2025` (impossible under both the day-first and
the month-first layout) must fail with an `InvalidDate` parse error.  The
code instead feeds it to `new Date(2025, 12, 13)`, whose out-of-range month
rolls over, so `validateAndFormatDate` returns the canonical date
`2026-01-13` rather than throwing: the `isNaN` fallback check on line 81 of
src/server.js never fires for numeric components. -/
theorem c3_invalid_date_rolls_over :
    validateAndFormatDate ("13/13/2025".toList) ("Row 2, checkin".toList)
      = .ok ("2026-01-13".toList) := by
  rfl

/-- C6: `validateAndFormatDate` is the identity on every string that already
matches the canonical `YYYY-MM-DD` shape and denotes a real calendar date
(src/server.js lines 62-70 return `cleanDate` unchanged, and cleaning is the
identity on such strings). -/
theorem c6_normalize_identity_on_iso (s ctx : JsStr) (h1 : isIsoFormat s = true)
    (h2 : isoDateValid s = true) :
    validateAndFormatDate s ctx = .ok s := by
  obtain ⟨hne, hchars⟩ := isIsoFormat_chars h1
  have hw : ∀ c ∈ s, c.isWhitespace = false := by
    intro c hc
    rcases hchars c hc with hd | rfl
    · exact isDigit_isWhitespace_false hd
    · decide
  have hq : ∀ c ∈ s, isQuoteChar c = false := by
    intro c hc
    rcases hchars c hc with hd | rfl
    · exact isDigit_isQuoteChar_false hd
    · decide
  have hclean : cleanDateOf s = s := cleanDateOf_eq_self hw hq
  have htrim : jsTrim s = s := jsTrim_eq_self hw
  unfold validateAndFormatDate
  rw [htrim, hclean, if_neg hne, if_pos h1, if_pos h2]

/-- Witness for C6 at the concrete canonical date `2025-12-11`. -/
theorem c6_normalize_identity_on_iso_witness :
    validateAndFormatDate ("2025-12-11".toList) ("c".toList) = .ok ("2025-12-11".toList) :=
  c6_normalize_identity_on_iso ("2025-12-11".toList) ("c".toList) (by decide) (by decide)

/-- C7: an empty or all-whitespace date value makes `validateAndFormatDate`
fail with the empty-date error carrying the caller's context (src/server.js
lines 54-56), and `processRow` passes the context naming the correct row and
field: `Row index+2, checkin` for column 1, `Row index+2, checkout` for
column 2 (lines 130-134); no canonical date is returned. -/
theorem c7_empty_date_rejected :
    (∀ s ctx, jsTrim s = [] → validateAndFormatDate s ctx = .error (.emptyDate ctx))
  ∧ (∀ line index, 2 < (splitOnChar ',' line).length →
      jsTrim ((splitOnChar ',' line).getD 1 []) = [] →
      processRow line index = .error (.emptyDate (checkinContext index)))
  ∧ (∀ line index v, 2 < (splitOnChar ',' line).length →
      validateAndFormatDate ((splitOnChar ',' line).getD 1 []) (checkinContext index) = .ok v →
      jsTrim ((splitOnChar ',' line).getD 2 []) = [] →
      processRow line index = .error (.emptyDate (checkoutContext index))) := by
  have base : ∀ s ctx, jsTrim s = [] → validateAndFormatDate s ctx = .error (.emptyDate ctx) := by
    intro s ctx h
    unfold validateAndFormatDate
    rw [if_pos h]
  refine ⟨base, ?_, ?_⟩
  · intro line index hlen h1
    unfold processRow
    rw [if_pos hlen, base _ _ h1]
  · intro line index v hlen hok h2
    unfold processRow
    rw [if_pos hlen, hok, base _ _ h2]

/-- Witness for C7: a whitespace value, a blank check-in field in row 2, and
a blank check-out field in row 5. -/
theorem c7_empty_date_rejected_witness :
    validateAndFormatDate (" ".toList) ("x".toList) = .error (.emptyDate ("x".toList))
  ∧ processRow ("P1, ,x".toList) 0 = .error (.emptyDate (checkinContext 0))
  ∧ processRow ("P1,2025-01-02, ".toList) 3 = .error (.emptyDate (checkoutContext 3)) :=
  ⟨c7_empty_date_rejected.1 (" ".toList) ("x".toList) (by decide),
   c7_empty_date_rejected.2.1 ("P1, ,x".toList) 0 (by decide) (by decide),
   c7_empty_date_rejected.2.2 ("P1,2025-01-02, ".toList) 3 ("2025-01-02".toList)
     (by decide) (by decide) (by decide)⟩

/-- C10 counterexample: the claim says a slash-delimited value with three
numeric segments never fails with `InvalidDate`; but a day count beyond the
±100,000,000-day range of a JS time value is an Invalid Date under both
layouts, so the code throws its unable-to-parse error. -/
theorem c10_counterexample :
    validateAndFormatDate ("100000000000000000/1/1".toList) ("x".toList)
      = .error (.unableToParse ("x".toList) ("100000000000000000/1/1".toList)) := by
  rfl

/-- C10 (amended): for a slash-delimited value of three non-empty all-digit
segments whose day-first interpretation `new Date(c, b-1, a)` is a valid
(in-range) date, `validateAndFormatDate` succeeds with that rolled-over
day-first date — the month-first fallback never determines the result. -/
theorem c10_amended_slash_numeric_day_first (a b c ctx : JsStr) (t : Int)
    (ha : a ≠ []) (hA : ∀ ch ∈ a, ch.isDigit = true)
    (hb : b ≠ []) (hB : ∀ ch ∈ b, ch.isDigit = true)
    (hc : c ≠ []) (hC : ∀ ch ∈ c, ch.isDigit = true)
    (hdate : jsDateYMD (jsToNumber c) (Option.map (fun x => x - 1) (jsToNumber b))
      (jsToNumber a) = some t) :
    validateAndFormatDate (a ++ '/' :: (b ++ '/' :: c)) ctx = .ok (formatJsDate t) := by
  have hmem : ∀ ch ∈ a ++ '/' :: (b ++ '/' :: c), ch.isDigit = true ∨ ch = '/' := by
    intro ch hch
    simp only [List.mem_append, List.mem_cons] at hch
    rcases hch with h | h | h | h | h
    · exact Or.inl (hA ch h)
    · exact Or.inr h
    · exact Or.inl (hB ch h)
    · exact Or.inr h
    · exact Or.inl (hC ch h)
  have hslash : '/' ∈ a ++ '/' :: (b ++ '/' :: c) := by simp
  have hne : a ++ '/' :: (b ++ '/' :: c) ≠ [] := List.ne_nil_of_mem hslash
  have hw : ∀ ch ∈ a ++ '/' :: (b ++ '/' :: c), ch.isWhitespace = false := by
    intro ch hch
    rcases hmem ch hch with hd | rfl
    · exact isDigit_isWhitespace_false hd
    · decide
  have hq : ∀ ch ∈ a ++ '/' :: (b ++ '/' :: c), isQuoteChar ch = false := by
    intro ch hch
    rcases hmem ch hch with hd | rfl
    · exact isDigit_isQuoteChar_false hd
    · decide
  have hclean : cleanDateOf (a ++ '/' :: (b ++ '/' :: c)) = a ++ '/' :: (b ++ '/' :: c) :=
    cleanDateOf_eq_self hw hq
  have htrim : jsTrim (a ++ '/' :: (b ++ '/' :: c)) = a ++ '/' :: (b ++ '/' :: c) :=
    jsTrim_eq_self hw
  have hiso : isIsoFormat (a ++ '/' :: (b ++ '/' :: c)) = false := by
    by_contra hi
    rw [Bool.not_eq_false] at hi
    obtain ⟨-, hchars⟩ := isIsoFormat_chars hi
    rcases hchars '/' hslash with hd | hd <;> exact absurd hd (by decide)
  have hnas : '/' ∉ a := fun hm => absurd (hA '/' hm) (by decide)
  have hnbs : '/' ∉ b := fun hm => absurd (hB '/' hm) (by decide)
  have hncs : '/' ∉ c := fun hm => absurd (hC '/' hm) (by decide)
  have hsplit : splitOnChar '/' (a ++ '/' :: (b ++ '/' :: c)) = [a, b, c] := by
    rw [splitOnChar_append hnas, splitOnChar_append hnbs, splitOnChar_of_not_mem hncs]
  have hps : parseSlash (a ++ '/' :: (b ++ '/' :: c)) = some t := by
    unfold parseSlash
    rw [hsplit]
    simp [hdate]
  unfold validateAndFormatDate
  rw [htrim, hclean, if_neg hne, hiso]
  rw [if_neg (by decide : ¬(false = true)), if_pos hslash, hps]

/-- Witness for C10 (amended) at `31/2/2025`: February 31 rolls over to
March 3. -/
theorem c10_amended_slash_numeric_day_first_witness :
    validateAndFormatDate ("31/2/2025".toList) ("x".toList) = .ok ("2025-03-03".toList) := by
  have h := c10_amended_slash_numeric_day_first ("31".toList) ("2".toList) ("2025".toList)
    ("x".toList) 20150 (by decide) (by decide) (by decide) (by decide) (by decide) (by decide)
    (by decide)
  exact h

/-! ### Partitioner: scan and drain lemmas -/

lemma propCountIn_cons (b : Booking) (t : List Booking) (k : JsStr) :
    propCountIn (b :: t) k = (if propId b = k then 1 else 0) + propCountIn t k := by
  unfold propCountIn
  rw [List.filter_cons]
  by_cases h : propId b = k
  · simp [h, Nat.add_comm]
  · simp [h]

lemma scanPool_perm (mbs mpp : Nat) (pool : List Booking) :
    ∀ (n : Nat) (c : JsStr → Nat),
      ((scanPool mbs mpp pool n c).1 ++ (scanPool mbs mpp pool n c).2).Perm pool := by
  induction pool with
  | nil => intro n c; simp [scanPool]
  | cons b rest ih =>
    intro n c
    by_cases h1 : n < mbs
    · by_cases h2 : c (propId b) < mpp
      · simp only [scanPool, if_pos h1, if_pos h2, List.cons_append]
        exact (ih _ _).cons b
      · simp only [scanPool, if_pos h1, if_neg h2]
        exact List.perm_middle.trans ((ih _ _).cons b)
    · simp only [scanPool, if_neg h1, List.nil_append]
      exact List.Perm.refl _

lemma scanPool_length (mbs mpp : Nat) (pool : List Booking) (n : Nat) (c : JsStr → Nat) :
    (scanPool mbs mpp pool n c).1.length + (scanPool mbs mpp pool n c).2.length = pool.length := by
  simpa using (scanPool_perm mbs mpp pool n c).length_eq

lemma scanPool_fst_sublist (mbs mpp : Nat) (pool : List Booking) :
    ∀ (n : Nat) (c : JsStr → Nat), (scanPool mbs mpp pool n c).1.Sublist pool := by
  induction pool with
  | nil => intro n c; simp [scanPool]
  | cons b rest ih =>
    intro n c
    by_cases h1 : n < mbs
    · by_cases h2 : c (propId b) < mpp
      · simp only [scanPool, if_pos h1, if_pos h2]
        exact (ih _ _).cons₂ b
      · simp only [scanPool, if_pos h1, if_neg h2]
        exact (ih _ _).cons b
    · simp only [scanPool, if_neg h1]
      exact List.nil_sublist _

lemma scanPool_snd_sublist (mbs mpp : Nat) (pool : List Booking) :
    ∀ (n : Nat) (c : JsStr → Nat), (scanPool mbs mpp pool n c).2.Sublist pool := by
  induction pool with
  | nil => intro n c; simp [scanPool]
  | cons b rest ih =>
    intro n c
    by_cases h1 : n < mbs
    · by_cases h2 : c (propId b) < mpp
      · simp only [scanPool, if_pos h1, if_pos h2]
        exact (ih _ _).cons b
      · simp only [scanPool, if_pos h1, if_neg h2]
        exact (ih _ _).cons₂ b
    · simp only [scanPool, if_neg h1]
      exact List.Sublist.refl _

lemma scanPool_fst_length_le (mbs mpp : Nat) (pool : List Booking) :
    ∀ (n : Nat) (c : JsStr → Nat), (scanPool mbs mpp pool n c).1.length ≤ mbs - n := by
  induction pool with
  | nil => intro n c; simp [scanPool]
  | cons b rest ih =>
    intro n c
    by_cases h1 : n < mbs
    · by_cases h2 : c (propId b) < mpp
      · simp only [scanPool, if_pos h1, if_pos h2, List.length_cons]
        have h3 := ih (n + 1) (fun p => if p = propId b then c p + 1 else c p)
        omega
      · simp only [scanPool, if_pos h1, if_neg h2]
        exact ih n c
    · simp [scanPool, if_neg h1]

lemma scanPool_counts_le (mbs mpp : Nat) (pool : List Booking) :
    ∀ (n : Nat) (c : JsStr → Nat), (∀ k, c k ≤ mpp) →
      ∀ k, c k + propCountIn (scanPool mbs mpp pool n c).1 k ≤ mpp := by
  induction pool with
  | nil =>
    intro n c hc k
    simpa [scanPool, propCountIn] using hc k
  | cons b rest ih =>
    intro n c hc k
    by_cases h1 : n < mbs
    · by_cases h2 : c (propId b) < mpp
      · simp only [scanPool, if_pos h1, if_pos h2]
        rw [propCountIn_cons]
        have hc' : ∀ k', (fun p => if p = propId b then c p + 1 else c p) k' ≤ mpp := by
          intro k'
          by_cases hk : k' = propId b
          · simpa [hk] using h2
          · simpa [hk] using hc k'
        have h3 := ih (n + 1) (fun p => if p = propId b then c p + 1 else c p) hc' k
        simp only [] at h3
        by_cases hk : propId b = k
        · rw [if_pos hk]
          rw [if_pos hk.symm] at h3
          omega
        · rw [if_neg hk]
          rw [if_neg (fun h => hk h.symm)] at h3
          omega
      · simp only [scanPool, if_pos h1, if_neg h2]
        exact ih n c hc k
    · simp only [scanPool, if_neg h1]
      simpa [propCountIn] using hc k

lemma scanPool_fst_ne_nil (mbs mpp : Nat) (hmbs : 0 < mbs) (hmpp : 0 < mpp)
    (b : Booking) (rest : List Booking) :
    (scanPool mbs mpp (b :: rest) 0 (fun _ => 0)).1 ≠ [] := by
  simp [scanPool, hmbs, hmpp]

lemma scanPool_fst_mbs_zero (mpp : Nat) (pool : List Booking) (c : JsStr → Nat) :
    (scanPool 0 mpp pool 0 c).1 = [] := by
  cases pool <;> simp [scanPool]

lemma scanPool_fst_mpp_zero (mbs : Nat) (pool : List Booking) :
    ∀ (n : Nat) (c : JsStr → Nat), (scanPool mbs 0 pool n c).1 = [] := by
  induction pool with
  | nil => intro n c; simp [scanPool]
  | cons b rest ih =>
    intro n c
    by_cases h1 : n < mbs
    · simp [scanPool, if_pos h1, ih]
    · simp [scanPool, if_neg h1]

lemma drainFuel_succ (mbs mpp fuel : Nat) (pool : List Booking) :
    drainFuel mbs mpp (fuel + 1) pool =
      if pool = [] then []
      else if (scanPool mbs mpp pool 0 (fun _ => 0)).1 = [] then []
      else (scanPool mbs mpp pool 0 (fun _ => 0)).1 ::
        drainFuel mbs mpp fuel ((scanPool mbs mpp pool 0 (fun _ => 0)).2) := rfl

lemma drainFuel_batch_bounds (mbs mpp : Nat) :
    ∀ (fuel : Nat) (pool : List Booking) (batch : List Booking),
      batch ∈ drainFuel mbs mpp fuel pool →
      batch.length ≤ mbs ∧ ∀ k, propCountIn batch k ≤ mpp := by
  intro fuel
  induction fuel with
  | zero => intro pool batch h; simp [drainFuel] at h
  | succ fuel ih =>
    intro pool batch h
    rw [drainFuel_succ] at h
    split_ifs at h with h1 h2
    · simp at h
    · simp at h
    · rcases List.mem_cons.mp h with rfl | h3
      · constructor
        · have h4 := scanPool_fst_length_le mbs mpp pool 0 (fun _ => 0)
          omega
        · intro k
          have h5 := scanPool_counts_le mbs mpp pool 0 (fun _ => 0) (fun _ => Nat.zero_le mpp) k
          simpa using h5
      · exact ih _ _ h3

lemma drainFuel_flatten_perm (mbs mpp : Nat) (hmbs : 0 < mbs) (hmpp : 0 < mpp) :
    ∀ (fuel : Nat) (pool : List Booking), pool.length < fuel →
      (drainFuel mbs mpp fuel pool).flatten.Perm pool := by
  intro fuel
  induction fuel with
  | zero => intro pool h; omega
  | succ fuel ih =>
    intro pool hlen
    rw [drainFuel_succ]
    rcases pool with _ | ⟨b, rest⟩
    · simp
    · rw [if_neg (by simp)]
      have hb : (scanPool mbs mpp (b :: rest) 0 (fun _ => 0)).1 ≠ [] :=
        scanPool_fst_ne_nil mbs mpp hmbs hmpp b rest
      rw [if_neg hb, List.flatten_cons]
      have h1 := scanPool_length mbs mpp (b :: rest) 0 (fun _ => 0)
      have h2 : 0 < (scanPool mbs mpp (b :: rest) 0 (fun _ => 0)).1.length :=
        List.length_pos.mpr hb
      have hlen2 : (scanPool mbs mpp (b :: rest) 0 (fun _ => 0)).2.length < fuel := by
        simp only [List.length_cons] at h1 hlen
        omega
      exact ((ih _ hlen2).append_left _).trans (scanPool_perm mbs mpp (b :: rest) 0 _)

lemma drainFuel_fuel_irrelevant (mbs mpp : Nat) :
    ∀ (f g : Nat) (pool : List Booking), pool.length < f → pool.length < g →
      drainFuel mbs mpp f pool = drainFuel mbs mpp g pool := by
  intro f
  induction f with
  | zero => intro g pool hf _; omega
  | succ f ih =>
    intro g pool hf hg
    rcases g with _ | g
    · omega
    · rw [drainFuel_succ, drainFuel_succ]
      rcases eq_or_ne pool [] with hp | hp
      · rw [if_pos hp, if_pos hp]
      · rw [if_neg hp, if_neg hp]
        by_cases hb : (scanPool mbs mpp pool 0 (fun _ => 0)).1 = []
        · rw [if_pos hb, if_pos hb]
        · rw [if_neg hb, if_neg hb]
          have h1 := scanPool_length mbs mpp pool 0 (fun _ => 0)
          have h2 : 0 < (scanPool mbs mpp pool 0 (fun _ => 0)).1.length :=
            List.length_pos.mpr hb
          have h3 : 0 < pool.length := List.length_pos.mpr hp
          rw [ih g _ (by omega) (by omega)]

lemma drainFuel_batch_sublist (mbs mpp : Nat) :
    ∀ (fuel : Nat) (pool : List Booking) (batch : List Booking),
      batch ∈ drainFuel mbs mpp fuel pool → batch.Sublist pool := by
  intro fuel
  induction fuel with
  | zero => intro pool batch h; simp [drainFuel] at h
  | succ fuel ih =>
    intro pool batch h
    rw [drainFuel_succ] at h
    split_ifs at h with h1 h2
    · simp at h
    · simp at h
    · rcases List.mem_cons.mp h with rfl | h3
      · exact scanPool_fst_sublist mbs mpp pool 0 (fun _ => 0)
      · exact (ih _ _ h3).trans (scanPool_snd_sublist mbs mpp pool 0 (fun _ => 0))

lemma drainFuel_zero_limits (mbs mpp fuel : Nat) (pool : List Booking)
    (h : mbs = 0 ∨ mpp = 0) : drainFuel mbs mpp fuel pool = [] := by
  rcases fuel with _ | fuel
  · rfl
  · rw [drainFuel_succ]
    rcases eq_or_ne pool [] with hp | hp
    · rw [if_pos hp]
    · rw [if_neg hp]
      rcases h with rfl | rfl
      · rw [if_pos (scanPool_fst_mbs_zero mpp pool (fun _ => 0))]
      · rw [if_pos (scanPool_fst_mpp_zero mbs pool 0 (fun _ => 0))]

/-! ### Grouping lemmas -/

lemma addToGroup_flatten_perm (key : JsStr) (row : Booking) :
    ∀ acc, (allBookingsOf (addToGroup acc key row)).Perm (allBookingsOf acc ++ [row]) := by
  intro acc
  induction acc with
  | nil => simp [addToGroup, allBookingsOf]
  | cons p rest ih =>
    rcases p with ⟨k, rs⟩
    by_cases hk : k = key
    · simp only [addToGroup, if_pos hk, allBookingsOf, List.map_cons, List.flatten_cons]
      rw [List.append_assoc, List.append_assoc]
      exact List.perm_append_comm.append_left rs
    · simp only [addToGroup, if_neg hk, allBookingsOf, List.map_cons, List.flatten_cons] at ih ⊢
      rw [List.append_assoc]
      exact ih.append_left rs

lemma groupByProperty_flatten_perm (rows : List Booking) :
    (allBookingsOf (groupByProperty rows)).Perm rows := by
  suffices h : ∀ (rows : List Booking) (acc : List (JsStr × List Booking)),
      (allBookingsOf (List.foldl (fun acc row => addToGroup acc (propId row) row) acc
        rows)).Perm (allBookingsOf acc ++ rows) by
    simpa [allBookingsOf] using h rows []
  intro rows
  induction rows with
  | nil => intro acc; simp
  | cons r rest ih =>
    intro acc
    simp only [List.foldl_cons]
    refine (ih _).trans ?_
    have h1 : (allBookingsOf (addToGroup acc (propId r) r) ++ rest).Perm
        ((allBookingsOf acc ++ [r]) ++ rest) :=
      (addToGroup_flatten_perm _ _ acc).append_right rest
    refine h1.trans ?_
    rw [List.append_assoc, List.singleton_append]

lemma addToGroup_keys (key : JsStr) (row : Booking) :
    ∀ acc, (addToGroup acc key row).map Prod.fst =
      if key ∈ acc.map Prod.fst then acc.map Prod.fst else acc.map Prod.fst ++ [key] := by
  intro acc
  induction acc with
  | nil => simp [addToGroup]
  | cons p rest ih =>
    rcases p with ⟨k, rs⟩
    by_cases hk : k = key
    · subst hk
      simp [addToGroup]
    · have hk2 : ¬(key = k) := fun h => hk h.symm
      simp only [addToGroup, if_neg hk, List.map_cons, ih]
      by_cases hmem : key ∈ rest.map Prod.fst
      · simp [hmem, hk2]
      · simp [hmem, hk2]

lemma addToGroup_keys_nodup {acc : List (JsStr × List Booking)} {key : JsStr} {row : Booking}
    (hnd : (acc.map Prod.fst).Nodup) : ((addToGroup acc key row).map Prod.fst).Nodup := by
  rw [addToGroup_keys]
  by_cases hmem : key ∈ acc.map Prod.fst
  · rw [if_pos hmem]; exact hnd
  · rw [if_neg hmem]
    refine List.Nodup.append hnd (List.nodup_singleton key) ?_
    intro x hx hx2
    simp only [List.mem_singleton] at hx2
    subst hx2
    exact hmem hx

lemma addToGroup_consistent :
    ∀ (acc : List (JsStr × List Booking)) (key : JsStr) (row : Booking),
      (∀ p ∈ acc, ∀ r ∈ p.2, propId r = p.1) → propId row = key →
      ∀ p ∈ addToGroup acc key row, ∀ r ∈ p.2, propId r = p.1
  | [], key, row, _, hk => by
    intro p hp r hr
    simp only [addToGroup, List.mem_singleton] at hp
    subst hp
    simp only [List.mem_singleton] at hr
    subst hr
    exact hk
  | (k, rs) :: rest, key, row, h, hk => by
    by_cases hkk : k = key
    · intro p hp r hr
      simp only [addToGroup, if_pos hkk] at hp
      rcases List.mem_cons.mp hp with rfl | hp2
      · rcases List.mem_append.mp hr with hr1 | hr2
        · exact h (k, rs) (List.mem_cons_self _ _) r hr1
        · simp only [List.mem_singleton] at hr2
          subst hr2
          rw [hk]
          exact hkk.symm
      · exact h p (List.mem_cons_of_mem _ hp2) r hr
    · intro p hp r hr
      simp only [addToGroup, if_neg hkk] at hp
      rcases List.mem_cons.mp hp with rfl | hp2
      · exact h (k, rs) (List.mem_cons_self _ _) r hr
      · exact addToGroup_consistent rest key row
          (fun p2 hp2m => h p2 (List.mem_cons_of_mem _ hp2m)) hk p hp2 r hr

lemma flatten_filter_eq_nil {pb : List (JsStr × List Booking)} {q : JsStr}
    (h : ∀ p ∈ pb, ∀ r ∈ p.2, propId r ≠ q) :
    (allBookingsOf pb).filter (fun r => decide (propId r = q)) = [] := by
  rw [List.filter_eq_nil_iff]
  intro r hr
  simp only [allBookingsOf, List.mem_flatten, List.mem_map] at hr
  obtain ⟨l, ⟨p, hp, rfl⟩, hrl⟩ := hr
  simp [h p hp r hrl]

lemma addToGroup_flatten_filter :
    ∀ (acc : List (JsStr × List Booking)) (key : JsStr) (row : Booking) (q : JsStr),
      (∀ p ∈ acc, ∀ r ∈ p.2, propId r = p.1) → (acc.map Prod.fst).Nodup → propId row = key →
      (allBookingsOf (addToGroup acc key row)).filter (fun r => decide (propId r = q)) =
        (allBookingsOf acc).filter (fun r => decide (propId r = q)) ++
          (if key = q then [row] else [])
  | [], key, row, q, _, _, hk => by
    by_cases hq : key = q
    · simp [addToGroup, allBookingsOf, hq, hk.trans hq, List.filter_cons]
    · have hne : ¬(propId row = q) := fun hh => hq (hk.symm.trans hh)
      simp [addToGroup, allBookingsOf, hq, hne, List.filter_cons]
  | (k, rs) :: rest, key, row, q, h, hnd, hk => by
    by_cases hkk : k = key
    · simp only [addToGroup, if_pos hkk, allBookingsOf, List.map_cons, List.flatten_cons,
        List.filter_append]
      by_cases hq : key = q
      · have hrow : propId row = q := hk.trans hq
        have hrest : (allBookingsOf rest).filter (fun r => decide (propId r = q)) = [] := by
          apply flatten_filter_eq_nil
          intro p hp r hr hrq
          have h1 : propId r = p.1 := h p (List.mem_cons_of_mem _ hp) r hr
          have h2 : p.1 ∈ rest.map Prod.fst := List.mem_map_of_mem Prod.fst hp
          have h3 : k ∉ rest.map Prod.fst := by
            simp only [List.map_cons, List.nodup_cons] at hnd
            exact hnd.1
          rw [h1] at hrq
          rw [hrq, hq.symm.trans hkk.symm] at h2
          exact h3 h2
        simp only [allBookingsOf] at hrest
        rw [hrest]
        simp [hq, hrow, List.filter_cons]
      · have hrow : ¬(propId row = q) := fun hh => hq (hk.symm.trans hh)
        simp [hq, hrow, List.filter_cons]
    · simp only [addToGroup, if_neg hkk, allBookingsOf, List.map_cons, List.flatten_cons,
        List.filter_append]
      have htail := addToGroup_flatten_filter rest key row q
        (fun p hp => h p (List.mem_cons_of_mem _ hp))
        (by simp only [List.map_cons, List.nodup_cons] at hnd; exact hnd.2) hk
      simp only [allBookingsOf] at htail
      rw [htail, List.append_assoc]

lemma groupFold_filter (q : JsStr) :
    ∀ (rows : List Booking) (acc : List (JsStr × List Booking)),
      (∀ p ∈ acc, ∀ r ∈ p.2, propId r = p.1) → (acc.map Prod.fst).Nodup →
      (allBookingsOf (List.foldl (fun a row => addToGroup a (propId row) row) acc rows)).filter
          (fun r => decide (propId r = q)) =
        (allBookingsOf acc).filter (fun r => decide (propId r = q)) ++
          rows.filter (fun r => decide (propId r = q))
  | [], acc, _, _ => by simp
  | r :: rest, acc, h, hnd => by
    simp only [List.foldl_cons]
    rw [groupFold_filter q rest _ (addToGroup_consistent acc _ _ h rfl)
      (addToGroup_keys_nodup hnd)]
    rw [addToGroup_flatten_filter acc _ r q h hnd rfl]
    rw [List.filter_cons]
    by_cases hq : propId r = q
    · simp [hq, List.append_assoc]
    · simp [hq]

lemma groupByProperty_filter (rows : List Booking) (q : JsStr) :
    (allBookingsOf (groupByProperty rows)).filter (fun r => decide (propId r = q)) =
      rows.filter (fun r => decide (propId r = q)) := by
  have h := groupFold_filter q rows [] (by simp) (by simp)
  simpa [allBookingsOf, groupByProperty] using h

/-! ### Partitioner: claim theorems -/

/-- C1: for every input sequence of records, the batches produced by
`generateBatches` contain exactly the input records — the sum of batch
lengths equals the number of input records, and the concatenation of all
batches is a permutation of the input list (no record lost, none
duplicated). -/
theorem c1_coverage (rows : List Booking) (header : JsStr) :
    ((generateBatches (groupByProperty rows) header).map List.length).sum = rows.length
  ∧ ((generateBatches (groupByProperty rows) header).flatten).Perm rows := by
  have hperm : ((generateBatches (groupByProperty rows) header).flatten).Perm rows := by
    unfold generateBatches
    exact (drainFuel_flatten_perm 250 2 (by norm_num) (by norm_num) _ _
      (Nat.lt_succ_self _)).trans (groupByProperty_flatten_perm rows)
  refine ⟨?_, hperm⟩
  have hlen := hperm.length_eq
  rwa [List.length_flatten] at hlen

/-- C2: every batch produced by `generateBatches` has at most 250 records
(the `currentBatch.length < 250` bound of src/server.js line 237) and at
most 2 records of any one property key (the `< 2` bound of line 242). -/
theorem c2_batch_constraints (pb : List (JsStr × List Booking)) (header : JsStr)
    (batch : List Booking) (h : batch ∈ generateBatches pb header) :
    batch.length ≤ 250 ∧ ∀ k, propCountIn batch k ≤ 2 := by
  unfold generateBatches at h
  exact drainFuel_batch_bounds 250 2 _ _ _ h

/-- Witness for C2 on a one-record input. -/
theorem c2_batch_constraints_witness :
    [["A".toList, "x".toList]] ∈
      generateBatches (groupByProperty [["A".toList, "x".toList]]) []
  ∧ ([["A".toList, "x".toList]] : List Booking).length ≤ 250
  ∧ propCountIn [["A".toList, "x".toList]] ("A".toList) ≤ 2 := by
  have hmem : [["A".toList, "x".toList]] ∈
      generateBatches (groupByProperty [["A".toList, "x".toList]]) [] := by decide
  have h := c2_batch_constraints _ [] _ hmem
  exact ⟨hmem, h.1, h.2 _⟩

/-- C4 counterexample: the pool does not list the records in their original
relative input order.  With input rows keyed `A`, `B`, `A`, the grouping of
src/server.js lines 140-147 followed by the flattening of lines 222-227
yields the pool `A1, A3, B2`, not the input order `A1, B2, A3`. -/
theorem c4_counterexample :
    allBookingsOf (groupByProperty
        [["A".toList, "1".toList], ["B".toList, "2".toList], ["A".toList, "3".toList]])
      ≠ [["A".toList, "1".toList], ["B".toList, "2".toList], ["A".toList, "3".toList]] := by
  decide

/-- C4 (amended): the pool preserves the original relative order of the
records of each single property key (filtering the pool to one key gives
exactly the input filtered to that key, in input order), and each batch's
internal record order follows pool order (every batch is an in-order
sublist of the pool); only the interleaving of different keys is lost. -/
theorem c4_amended_pool_order (rows : List Booking) (header : JsStr) (k : JsStr) :
    (allBookingsOf (groupByProperty rows)).filter (fun r => decide (propId r = k)) =
      rows.filter (fun r => decide (propId r = k))
  ∧ ∀ batch ∈ generateBatches (groupByProperty rows) header,
      batch.Sublist (allBookingsOf (groupByProperty rows)) := by
  refine ⟨groupByProperty_filter rows k, ?_⟩
  intro batch h
  unfold generateBatches at h
  exact drainFuel_batch_sublist 250 2 _ _ _ h

/-- Witness for C4 (amended) on the `A`, `B`, `A` input. -/
theorem c4_amended_pool_order_witness :
    (allBookingsOf (groupByProperty
        [["A".toList, "1".toList], ["B".toList, "2".toList], ["A".toList, "3".toList]])).filter
        (fun r => decide (propId r = "A".toList)) =
      [["A".toList, "1".toList], ["B".toList, "2".toList], ["A".toList, "3".toList]].filter
        (fun r => decide (propId r = "A".toList))
  ∧ [["A".toList, "1".toList], ["A".toList, "3".toList], ["B".toList, "2".toList]].Sublist
      (allBookingsOf (groupByProperty
        [["A".toList, "1".toList], ["B".toList, "2".toList], ["A".toList, "3".toList]])) := by
  refine ⟨(c4_amended_pool_order _ [] ("A".toList)).1, ?_⟩
  exact (c4_amended_pool_order _ [] ("A".toList)).2 _ (by decide)

/-- C5 counterexample: the two limits are not caller-supplied parameters —
`generateBatches` hardcodes 250 and 2 (src/server.js lines 237, 242) and
takes no such arguments, so no choice of limits can make it return no
batches on a non-empty input: it emits a batch holding both `A` records,
while the spec's parameterized partitioner at `maxBatchSize = 0` or
`maxPerProperty = 0` returns none. -/
theorem c5_counterexample :
    generateBatches (groupByProperty [["A".toList, "1".toList], ["A".toList, "2".toList]]) []
      = [[["A".toList, "1".toList], ["A".toList, "2".toList]]]
  ∧ partitionSpec [["A".toList, "1".toList], ["A".toList, "2".toList]] 0 2 = []
  ∧ partitionSpec [["A".toList, "1".toList], ["A".toList, "2".toList]] 250 0 = [] :=
  ⟨by decide, by decide, by decide⟩

/-- C5 (amended): the drain loop with the two literals abstracted as
parameters (`partitionSpec`, the spec's `partition` contract) respects any
supplied pair of limits, terminates immediately with no batches when either
limit is 0, and the source's `generateBatches` is exactly this partitioner
fixed at `maxBatchSize = 250`, `maxPerProperty = 2` — the limits are
hardcoded, not configuration. -/
theorem c5_amended_parameterized :
    (∀ (maxBatchSize maxPerProperty : Nat) (records batch : List Booking),
      batch ∈ partitionSpec records maxBatchSize maxPerProperty →
      batch.length ≤ maxBatchSize ∧ ∀ k, propCountIn batch k ≤ maxPerProperty)
  ∧ (∀ (maxBatchSize maxPerProperty : Nat) (records : List Booking),
      maxBatchSize = 0 ∨ maxPerProperty = 0 →
      partitionSpec records maxBatchSize maxPerProperty = [])
  ∧ (∀ (pb : List (JsStr × List Booking)) (header : JsStr),
      generateBatches pb header = partitionSpec (allBookingsOf pb) 250 2) := by
  refine ⟨?_, ?_, ?_⟩
  · intro mbs mpp records batch h
    exact drainFuel_batch_bounds mbs mpp _ _ _ h
  · intro mbs mpp records h
    exact drainFuel_zero_limits mbs mpp _ _ h
  · intro pb header
    rfl

/-- Witness for C5 (amended): limits (1, 1) are respected on a one-record
input, zero limits give no batches, and the code coincides with the
parameterized partitioner at (250, 2). -/
theorem c5_amended_parameterized_witness :
    ([["A".toList]] : List Booking).length ≤ 1
  ∧ propCountIn [["A".toList]] ("A".toList) ≤ 1
  ∧ partitionSpec [["A".toList]] 0 5 = []
  ∧ generateBatches (groupByProperty [["A".toList]]) []
      = partitionSpec (allBookingsOf (groupByProperty [["A".toList]])) 250 2 := by
  have h1 := c5_amended_parameterized.1 1 1 [["A".toList]] [["A".toList]] (by decide)
  exact ⟨h1.1, h1.2 _, c5_amended_parameterized.2.1 0 5 _ (Or.inl rfl),
    c5_amended_parameterized.2.2 _ []⟩

/-- C8: five records of one property key, with the per-property limit 2 and
the batch-size limit 250 ≥ 5, are emitted as three batches of sizes 2, 2, 1
in that order. -/
theorem c8_five_records_one_property (k : JsStr) (r1 r2 r3 r4 r5 : List JsStr)
    (header : JsStr) :
    (generateBatches (groupByProperty [k :: r1, k :: r2, k :: r3, k :: r4, k :: r5])
        header).map List.length = [2, 2, 1] := by
  have hscan1 : scanPool 250 2 [k :: r1, k :: r2, k :: r3, k :: r4, k :: r5] 0 (fun _ => 0)
      = ([k :: r1, k :: r2], [k :: r3, k :: r4, k :: r5]) := by
    simp [scanPool, propId]
  have hscan2 : scanPool 250 2 [k :: r3, k :: r4, k :: r5] 0 (fun _ => 0)
      = ([k :: r3, k :: r4], [k :: r5]) := by
    simp [scanPool, propId]
  have hscan3 : scanPool 250 2 [k :: r5] 0 (fun _ => 0) = ([k :: r5], []) := by
    simp [scanPool, propId]
  have hpool : allBookingsOf (groupByProperty [k :: r1, k :: r2, k :: r3, k :: r4, k :: r5])
      = [k :: r1, k :: r2, k :: r3, k :: r4, k :: r5] := by
    simp [groupByProperty, addToGroup, allBookingsOf, propId]
  have hd1 : drainFuel 250 2 4 [k :: r5] = [[k :: r5]] := by
    rw [show (4 : Nat) = 3 + 1 from rfl, drainFuel_succ, if_neg (by simp), hscan3]
    simp [drainFuel]
  have hd2 : drainFuel 250 2 5 [k :: r3, k :: r4, k :: r5] = [[k :: r3, k :: r4], [k :: r5]] := by
    rw [show (5 : Nat) = 4 + 1 from rfl, drainFuel_succ, if_neg (by simp), hscan2]
    simp [hd1]
  unfold generateBatches
  rw [hpool, drainFuel_succ, if_neg (by simp), hscan1]
  simp [hd2]

/-- C9: the drain loop terminates on every finite input — whenever the scan
takes at least one record the remaining pool is strictly smaller, and the
loop's result is already final at fuel `pool.length + 1`: any two fuels
beyond the pool length give the same batches (the safety stop covers the
zero-progress case). -/
theorem c9_termination (mbs mpp : Nat) (pool : List Booking) :
    ((scanPool mbs mpp pool 0 (fun _ => 0)).1 ≠ [] →
      (scanPool mbs mpp pool 0 (fun _ => 0)).2.length < pool.length)
  ∧ ∀ f g, pool.length < f → pool.length < g →
      drainFuel mbs mpp f pool = drainFuel mbs mpp g pool := by
  constructor
  · intro h
    have h1 := scanPool_length mbs mpp pool 0 (fun _ => 0)
    have h2 : 0 < (scanPool mbs mpp pool 0 (fun _ => 0)).1.length := List.length_pos.mpr h
    omega
  · intro f g hf hg
    exact drainFuel_fuel_irrelevant mbs mpp f g pool hf hg

/-- Witness for C9 on a one-record pool. -/
theorem c9_termination_witness :
    (scanPool 250 2 [["A".toList]] 0 (fun _ => 0)).2.length < 1
  ∧ drainFuel 250 2 2 [["A".toList]] = drainFuel 250 2 9 [["A".toList]] := by
  refine ⟨?_, (c9_termination 250 2 [["A".toList]]).2 2 9 (by decide) (by decide)⟩
  have h := (c9_termination 250 2 [["A".toList]]).1 (by decide)
  simpa using h
